import Mathlib

/-!
Shallow embedding of the cb-yourl-cloud clipboard service: the access-control
model (Clipboard, Product, User, FamilyGroup) and the request handlers the
specification's claims refer to, together with theorems settling each claim.

Times are modelled as integers (milliseconds); identifiers as naturals for
users and strings for products, mirroring the document schema.
-/

namespace CbYourl

abbrev UserId := Nat
abbrev Time := Int

/-! ## Clipboard entry model (src/models/Clipboard.js) -/

/-- `sharedWith[].accessLevel` enum: `read` or `write`. -/
inductive ShareLevel
  | read
  | write
deriving DecidableEq, Repr

/-- The rank table `{ read: 1, write: 2 }` used by `userHasAccess`. -/
def shareLevelRank : ShareLevel → Nat
  | .read => 1
  | .write => 2

/-- One record of a clipboard entry's `sharedWith` array. -/
structure ShareRecord where
  userId : UserId
  accessLevel : ShareLevel
  grantedAt : Time
deriving DecidableEq, Repr

/-- Clipboard entry `type` enum. -/
inductive CbType
  | text
  | image
  | file
  | link
deriving DecidableEq, Repr

/-- A clipboard entry document: the fields consulted by access control and by
the listing queries (`content` only feeds the text index, which is abstracted
as a predicate argument where needed). -/
structure ClipboardEntry where
  productId : String
  createdBy : UserId
  type : CbType
  tags : List String
  isPublic : Bool
  sharedWith : List ShareRecord
deriving DecidableEq, Repr

/-- `clipboardSchema.methods.userHasAccess`: public entries are accessible to
everyone; the creator has full access; otherwise the first `sharedWith` record
for the user is rank-compared against the required level. -/
def ClipboardEntry.userHasAccess (e : ClipboardEntry) (userId : UserId)
    (requiredLevel : ShareLevel) : Bool :=
  if e.isPublic then true
  else if e.createdBy == userId then true
  else
    match e.sharedWith.find? (fun share => share.userId == userId) with
    | some sharedAccess =>
        shareLevelRank sharedAccess.accessLevel ≥ shareLevelRank requiredLevel
    | none => false

/-- Helper mirroring `this.sharedWith[existingIndex].accessLevel = ...;
this.sharedWith[existingIndex].grantedAt = ...` — update the first record
whose `userId` matches, leave every other record untouched. -/
def updateShareFirst (uid : UserId) (lvl : ShareLevel) (now : Time) :
    List ShareRecord → List ShareRecord
  | [] => []
  | s :: rest =>
      if s.userId == uid then
        { s with accessLevel := lvl, grantedAt := now } :: rest
      else
        s :: updateShareFirst uid lvl now rest

/-- `clipboardSchema.methods.shareWithUser`: if a record for the user exists
(`findIndex >= 0`) its level and timestamp are updated in place, otherwise a
fresh record is pushed. -/
def ClipboardEntry.shareWithUser (e : ClipboardEntry) (uid : UserId)
    (lvl : ShareLevel) (now : Time) : ClipboardEntry :=
  if e.sharedWith.any (fun share => share.userId == uid) then
    { e with sharedWith := updateShareFirst uid lvl now e.sharedWith }
  else
    { e with sharedWith := e.sharedWith ++ [⟨uid, lvl, now⟩] }

/-- The query object built by the `GET /api/clipboard` handler
(src/routes/clipboard.js, lines 64–118), as a membership predicate on entries:
`{ productId }` plus the optional `type`, `tags: { $in: tags }` and
`$text: { $search: search }` filters.  The Mongo text index is abstracted as
the `textMatch` argument.  No visibility condition is added. -/
def routeListQueryMatches (textMatch : String → ClipboardEntry → Bool)
    (productId : String) (type? : Option CbType) (tags : List String)
    (search? : Option String) (e : ClipboardEntry) : Bool :=
  e.productId == productId
  && (match type? with
      | some t => e.type == t
      | none => true)
  && (if tags.isEmpty then true else e.tags.any (fun t => tags.contains t))
  && (match search? with
      | some s => textMatch s e
      | none => true)

/-- `clipboardSchema.statics.findByProduct` as a membership predicate:
`{ productId }` plus optional `type`, lowercased `tags` `$in`, `$text`, and —
when `options.userId` is supplied — the `$or` visibility filter
`createdBy = userId ∨ isPublic ∨ sharedWith.userId = userId`. -/
def findByProductMatches (textMatch : String → ClipboardEntry → Bool)
    (productId : String) (type? : Option CbType) (tags : List String)
    (search? : Option String) (userId? : Option UserId)
    (e : ClipboardEntry) : Bool :=
  e.productId == productId
  && (match type? with
      | some t => e.type == t
      | none => true)
  && (if tags.isEmpty then true
      else e.tags.any (fun t => (tags.map String.toLower).contains t))
  && (match search? with
      | some s => textMatch s e
      | none => true)
  && (match userId? with
      | some uid =>
          e.createdBy == uid || e.isPublic
            || e.sharedWith.any (fun share => share.userId == uid)
      | none => true)

/-! ## Product model (src/models/Product.js) -/

/-- Product `status` enum. -/
inductive ProductStatus
  | active
  | beta
  | deprecated
  | maintenance
deriving DecidableEq, Repr

/-- Product `accessLevel` enum. -/
inductive ProductAccessLevel
  | public
  | registered
  | inviteOnly
  | familyOnly
deriving DecidableEq, Repr

/-- `administrators[].role` enum. -/
inductive AdminRole
  | admin
  | moderator
  | support
deriving DecidableEq, Repr

/-- The string a role renders to in the decision object. -/
def AdminRole.toLevelString : AdminRole → String
  | .admin => "admin"
  | .moderator => "moderator"
  | .support => "support"

/-- One record of a product's `administrators` array. -/
structure Administrator where
  userId : UserId
  role : AdminRole
deriving DecidableEq, Repr

/-- A product document: the fields consulted by `isAvailable` and
`canUserAccess`. -/
structure Product where
  status : ProductStatus
  isUnderMaintenance : Bool
  currentUsers : Nat
  maxUsers : Nat
  accessLevel : ProductAccessLevel
  owner : UserId
  administrators : List Administrator
deriving DecidableEq, Repr

/-- The `isAvailable` virtual: active status, not under maintenance, and user
count below the cap. -/
def Product.isAvailable (p : Product) : Bool :=
  p.status == .active && !p.isUnderMaintenance && p.currentUsers < p.maxUsers

/-- The `{ canAccess, level?, reason? }` object returned by
`canUserAccess`. -/
structure AccessDecision where
  canAccess : Bool
  level : Option String
  reason : Option String
deriving DecidableEq, Repr

/-- `productSchema.methods.canUserAccess`: availability first, then owner,
then the administrator list, then the product-wide access level. -/
def Product.canUserAccess (p : Product) (userId : UserId) : AccessDecision :=
  if !p.isAvailable then
    { canAccess := false, level := none, reason := some "Product not available" }
  else if p.owner == userId then
    { canAccess := true, level := some "owner", reason := none }
  else
    match p.administrators.find? (fun a => a.userId == userId) with
    | some admin =>
        { canAccess := true, level := some admin.role.toLevelString, reason := none }
    | none =>
        match p.accessLevel with
        | .public =>
            { canAccess := true, level := some "public", reason := none }
        | .registered =>
            { canAccess := true, level := some "registered", reason := none }
        | .inviteOnly =>
            { canAccess := false, level := none, reason := some "Invite required" }
        | .familyOnly =>
            { canAccess := false, level := none, reason := some "Family access required" }

/-! ## User product access (src/models/User.js) -/

/-- `productAccess[].accessLevel` enum. -/
inductive ProdLevel
  | read
  | write
  | admin
deriving DecidableEq, Repr

/-- The rank table `{ read: 1, write: 2, admin: 3 }` used by
`hasProductAccess`. -/
def prodLevelRank : ProdLevel → Nat
  | .read => 1
  | .write => 2
  | .admin => 3

/-- One record of a user's `productAccess` array. -/
structure ProductAccessEntry where
  productId : String
  accessLevel : ProdLevel
  expiresAt : Option Time
  isActive : Bool
deriving DecidableEq, Repr

/-- A user document: the fields consulted by the auth middleware and by
`hasProductAccess`. -/
structure User where
  isActive : Bool
  productAccess : List ProductAccessEntry
deriving DecidableEq, Repr

/-- `userSchema.methods.hasProductAccess`: find the first active entry for the
product and rank-compare its level; `expiresAt` is never consulted. -/
def User.hasProductAccess (u : User) (productId : String)
    (accessLevel : ProdLevel) : Bool :=
  match u.productAccess.find? (fun p => p.productId == productId && p.isActive) with
  | none => false
  | some p => prodLevelRank p.accessLevel ≥ prodLevelRank accessLevel

/-- The check claim C6 states, in the spec's words: an entry for the product
that is active, whose `expiresAt` (when present) has not passed at `now`, and
whose granted rank is at least the requested rank. -/
def hasProductAccessSpec (now : Time) (u : User) (productId : String)
    (accessLevel : ProdLevel) : Bool :=
  u.productAccess.any (fun p =>
    p.productId == productId && p.isActive
    && (match p.expiresAt with
        | some t => !(t < now)
        | none => true)
    && prodLevelRank p.accessLevel ≥ prodLevelRank accessLevel)

/-! ## Auth middleware (src/middleware/auth.js, authenticateToken) -/

/-- Outcome of `jwt.verify` on the presented token, when one is present. -/
inductive TokenResult
  | valid (userId : UserId)
  | expired
  | malformed
deriving DecidableEq, Repr

/-- An HTTP error response `res.status(s).json({ error: e })`. -/
structure ErrorResponse where
  status : Nat
  error : String
deriving DecidableEq, Repr

/-- `authenticateToken`: missing token → 401; `TokenExpiredError` → 401
"Token expired"; `JsonWebTokenError` → 401 "Invalid token"; unknown or
inactive user → 401 "User not found or inactive"; empty `productAccess`
array → 403 "No product access granted"; otherwise the request proceeds with
the user attached.  `lookup` models `User.findById`. -/
def authenticateToken (token? : Option TokenResult)
    (lookup : UserId → Option User) : Except ErrorResponse User :=
  match token? with
  | none => .error ⟨401, "Access token required"⟩
  | some .expired => .error ⟨401, "Token expired"⟩
  | some .malformed => .error ⟨401, "Invalid token"⟩
  | some (.valid uid) =>
      match lookup uid with
      | none => .error ⟨401, "User not found or inactive"⟩
      | some user =>
          if !user.isActive then
            .error ⟨401, "User not found or inactive"⟩
          else if user.productAccess.length == 0 then
            .error ⟨403, "No product access granted"⟩
          else
            .ok user

/-! ## Product member routes (src/routes/products.js)

The member handlers operate on the `members` array the routes attach to a
product (`{ userId, accessLevel }` with levels read/write/admin) and on the
product `owner`.  A handler that responds with an error does not save, so an
error outcome carries no new state. -/

/-- One record of the `members` array the routes manipulate. -/
structure Member where
  userId : UserId
  accessLevel : ProdLevel
deriving DecidableEq, Repr

/-- The product as the member routes see it. -/
structure RouteProduct where
  owner : UserId
  members : List Member
deriving DecidableEq, Repr

/-- `product.members[memberIndex].accessLevel = accessLevel` — update the
first member whose `userId` matches. -/
def updateMemberFirst (uid : UserId) (lvl : ProdLevel) :
    List Member → List Member
  | [] => []
  | m :: rest =>
      if m.userId == uid then
        { m with accessLevel := lvl } :: rest
      else
        m :: updateMemberFirst uid lvl rest

/-- The core of the `PUT /api/products/:productId/members/:userId` handler
(lines 394–426): locate the member, refuse to demote the last admin, else set
the new access level. -/
def updateMemberAccess (p : RouteProduct) (targetId : UserId)
    (accessLevel : ProdLevel) : Except String RouteProduct :=
  match p.members.find? (fun m => m.userId == targetId) with
  | none => .error "Member not found"
  | some member =>
      if accessLevel != ProdLevel.admin
          && (p.members.filter (fun m => m.accessLevel == ProdLevel.admin)).length == 1
          && member.accessLevel == ProdLevel.admin then
        .error "Cannot remove the last admin from the product"
      else
        .ok { p with members := updateMemberFirst targetId accessLevel p.members }

/-- The core of the `DELETE /api/products/:productId/members/:userId` handler
(lines 453–483): refuse to remove the owner, locate the member, refuse to
remove the last admin, else splice the member out. -/
def removeProductMember (p : RouteProduct) (targetId : UserId) :
    Except String RouteProduct :=
  if p.owner == targetId then
    .error "Cannot remove the product owner"
  else
    match p.members.find? (fun m => m.userId == targetId) with
    | none => .error "Member not found"
    | some member =>
        if member.accessLevel == ProdLevel.admin
            && (p.members.filter (fun m => m.accessLevel == ProdLevel.admin)).length == 1 then
          .error "Cannot remove the last admin from the product"
        else
          .ok { p with
                members := p.members.eraseP (fun m => m.userId == targetId) }

/-! ## Family group model (FamilyGroup schema) -/

/-- `members[].role` enum of a family group. -/
inductive FamilyRole
  | owner
  | admin
  | member
  | guest
deriving DecidableEq, Repr

/-- A member's `permissions` bundle. -/
structure Permissions where
  canInvite : Bool
  canManageMembers : Bool
  canViewAll : Bool
  canShare : Bool
deriving DecidableEq, Repr

/-- One record of a family group's `members` array. -/
structure FamilyMember where
  userId : UserId
  role : FamilyRole
  permissions : Permissions
deriving DecidableEq, Repr

/-- `pendingInvitations[].status` enum. -/
inductive InvStatus
  | pending
  | accepted
  | declined
  | expired
deriving DecidableEq, Repr

/-- One record of the `pendingInvitations` array. -/
structure Invitation where
  email : String
  expiresAt : Time
  role : FamilyRole
  status : InvStatus
deriving DecidableEq, Repr

/-- A family group document: the fields consulted by the membership and
invitation methods. -/
structure FamilyGroup where
  owner : UserId
  maxMembers : Nat
  members : List FamilyMember
  pendingInvitations : List Invitation
deriving DecidableEq, Repr

/-- `familyGroupSchema.methods.getDefaultPermissions`: the static
role→permission table. -/
def getDefaultPermissions : FamilyRole → Permissions
  | .owner =>
      { canInvite := true, canManageMembers := true, canViewAll := true, canShare := true }
  | .admin =>
      { canInvite := true, canManageMembers := true, canViewAll := true, canShare := true }
  | .member =>
      { canInvite := false, canManageMembers := false, canViewAll := true, canShare := true }
  | .guest =>
      { canInvite := false, canManageMembers := false, canViewAll := false, canShare := false }

/-- The `isFull` virtual: `members.length >= settings.maxMembers`. -/
def FamilyGroup.isFull (g : FamilyGroup) : Bool :=
  g.members.length ≥ g.maxMembers

/-- `familyGroupSchema.methods.canManageMember`: the owner role manages
everyone; the admin role manages members and guests only. -/
def FamilyGroup.canManageMember (g : FamilyGroup) (userId : UserId)
    (targetMember : FamilyMember) : Bool :=
  match g.members.find? (fun m => m.userId == userId) with
  | none => false
  | some user =>
      if user.role == FamilyRole.owner then true
      else
        user.role == FamilyRole.admin
          && targetMember.role != FamilyRole.owner
          && targetMember.role != FamilyRole.admin

/-- `familyGroupSchema.methods.addMember`: reject when full or already a
member, else push a member carrying the default permissions for the role. -/
def FamilyGroup.addMember (g : FamilyGroup) (userId : UserId)
    (role : FamilyRole) : Except String FamilyGroup :=
  if g.isFull then
    .error "Family group is full"
  else if g.members.any (fun m => m.userId == userId) then
    .error "User is already a member"
  else
    .ok { g with
          members := g.members ++ [⟨userId, role, getDefaultPermissions role⟩] }

/-- `familyGroupSchema.methods.removeMember`: reject an unknown member or a
remover without management rights over the target, else splice the member
out.  There is no sole-owner guard. -/
def FamilyGroup.removeMember (g : FamilyGroup) (userId : UserId)
    (removedBy : UserId) : Except String FamilyGroup :=
  match g.members.find? (fun m => m.userId == userId) with
  | none => .error "User is not a member"
  | some member =>
      if !(g.canManageMember removedBy member) then
        .error "Insufficient permissions to remove member"
      else
        .ok { g with
              members := g.members.eraseP (fun m => m.userId == userId) }

/-- `member.role = newRole; member.permissions = getDefaultPermissions(newRole)`
applied to the first member whose `userId` matches. -/
def updateRoleFirst (uid : UserId) (newRole : FamilyRole) :
    List FamilyMember → List FamilyMember
  | [] => []
  | m :: rest =>
      if m.userId == uid then
        { m with role := newRole, permissions := getDefaultPermissions newRole } :: rest
      else
        m :: updateRoleFirst uid newRole rest

/-- `familyGroupSchema.methods.updateMemberRole`: locate the member, check
management rights, then overwrite role and permissions with the default table
entry for the new role. -/
def FamilyGroup.updateMemberRole (g : FamilyGroup) (userId : UserId)
    (newRole : FamilyRole) (updatedBy : UserId) : Except String FamilyGroup :=
  match g.members.find? (fun m => m.userId == userId) with
  | none => .error "User is not a member"
  | some member =>
      if !(g.canManageMember updatedBy member) then
        .error "Insufficient permissions to update member"
      else
        .ok { g with members := updateRoleFirst userId newRole g.members }

/-- `invitation.status = st` applied to the first pending invitation whose
email matches (the record `find` located). -/
def setInvStatusFirst (email : String) (st : InvStatus) :
    List Invitation → List Invitation
  | [] => []
  | inv :: rest =>
      if inv.email == email && inv.status == InvStatus.pending then
        { inv with status := st } :: rest
      else
        inv :: setInvStatusFirst email st rest

/-- `familyGroupSchema.methods.acceptInvitation`.  Returns the persisted
group together with `some` error message on rejection.  An expired invitation
is saved with status `expired` before the rejection is raised; a rejection
from `addMember` happens before any save, so the stored group is unchanged
there. -/
def FamilyGroup.acceptInvitation (g : FamilyGroup) (email : String)
    (userId : UserId) (now : Time) : Option String × FamilyGroup :=
  match g.pendingInvitations.find?
      (fun inv => inv.email == email && inv.status == InvStatus.pending) with
  | none => (some "Invitation not found or already processed", g)
  | some invitation =>
      if invitation.expiresAt < now then
        (some "Invitation has expired",
         { g with pendingInvitations :=
             setInvStatusFirst email InvStatus.expired g.pendingInvitations })
      else
        let accepted :=
          { g with pendingInvitations :=
              setInvStatusFirst email InvStatus.accepted g.pendingInvitations }
        match accepted.addMember userId invitation.role with
        | .error e => (some e, g)
        | .ok g2 => (none, g2)

/-- `familyGroupSchema.methods.declineInvitation`. -/
def FamilyGroup.declineInvitation (g : FamilyGroup) (email : String) :
    Option String × FamilyGroup :=
  match g.pendingInvitations.find?
      (fun inv => inv.email == email && inv.status == InvStatus.pending) with
  | none => (some "Invitation not found", g)
  | some _ =>
      (none,
       { g with pendingInvitations :=
           setInvStatusFirst email InvStatus.declined g.pendingInvitations })

/-! ## Concrete instances used by counterexamples and witnesses -/

/-- A private entry in product "P" created by user 1 and shared with nobody. -/
def privateEntryP : ClipboardEntry :=
  { productId := "P", createdBy := 1, type := .text, tags := [],
    isPublic := false, sharedWith := [] }

/-- A public entry created by user 1 and shared with nobody. -/
def publicEntry : ClipboardEntry :=
  { productId := "P", createdBy := 1, type := .text, tags := [],
    isPublic := true, sharedWith := [] }

/-- A product under maintenance, owned by user 7. -/
def maintenanceProduct : Product :=
  { status := .active, isUnderMaintenance := true, currentUsers := 0,
    maxUsers := 1000, accessLevel := .inviteOnly, owner := 7,
    administrators := [] }

/-- An available invite-only product owned by user 7. -/
def availableProduct : Product :=
  { status := .active, isUnderMaintenance := false, currentUsers := 0,
    maxUsers := 1000, accessLevel := .inviteOnly, owner := 7,
    administrators := [] }

/-- A full product (user count at the cap), owned by user 3. -/
def fullProduct : Product :=
  { status := .active, isUnderMaintenance := false, currentUsers := 1000,
    maxUsers := 1000, accessLevel := .public, owner := 3,
    administrators := [⟨4, .admin⟩] }

/-- An active user whose only product-access entry is inactive. -/
def inactiveGrantUser : User :=
  { isActive := true,
    productAccess := [⟨"P", .read, none, false⟩] }

/-- An active user whose only product-access entry is active but expired at
every positive time. -/
def expiredGrantUser : User :=
  { isActive := true,
    productAccess := [⟨"P", .admin, some 0, true⟩] }

/-- A family group whose sole member holds the `owner` role. -/
def soleOwnerGroup : FamilyGroup :=
  { owner := 1, maxMembers := 20,
    members := [⟨1, .owner, getDefaultPermissions .owner⟩],
    pendingInvitations := [] }

/-- A route product whose sole admin-level member is user 1. -/
def soleAdminProduct : RouteProduct :=
  { owner := 9, members := [⟨1, .admin⟩, ⟨2, .read⟩] }

/-- A family group with owner 1 and a `member`-role member 2 carrying a
non-default permission bundle. -/
def roleChangeGroup : FamilyGroup :=
  { owner := 1, maxMembers := 20,
    members := [⟨1, .owner, getDefaultPermissions .owner⟩,
                ⟨2, .member, ⟨true, true, true, false⟩⟩],
    pendingInvitations := [] }

/-- An entry already shared with user 2 at `read`. -/
def sharedEntry : ClipboardEntry :=
  { productId := "P", createdBy := 1, type := .text, tags := [],
    isPublic := false, sharedWith := [⟨2, .read, 0⟩] }

/-- A family group holding one pending invitation that expired at time 0. -/
def expiredInviteGroup : FamilyGroup :=
  { owner := 1, maxMembers := 20,
    members := [⟨1, .owner, getDefaultPermissions .owner⟩],
    pendingInvitations := [⟨"b@example.com", 0, .member, .pending⟩] }

/-- A user holding a single active `admin` grant on product "P". -/
def adminGrantUser : User :=
  { isActive := true,
    productAccess := [⟨"P", .admin, none, true⟩] }

/-! ## Theorems -/

/-- C10: whenever a product is unavailable — status not `active`, under
maintenance, or `currentUsers` at `maxUsers` — `canUserAccess` returns
`{ canAccess: false, reason: 'Product not available' }` for every user,
including the owner and administrators: availability is decided before any
ownership or grant lookup. -/
theorem C10_unavailable_denies_all (p : Product) (userId : UserId)
    (h : p.isAvailable = false) :
    p.canUserAccess userId =
      { canAccess := false, level := none, reason := some "Product not available" } := by
  simp [Product.canUserAccess, h]

theorem C10_unavailable_denies_all_witness :
    maintenanceProduct.isAvailable = false ∧
    maintenanceProduct.canUserAccess maintenanceProduct.owner =
      { canAccess := false, level := none, reason := some "Product not available" } :=
  ⟨by decide,
   C10_unavailable_denies_all maintenanceProduct maintenanceProduct.owner (by decide)⟩

/-- C2 counterexample: the claim says the owner is allowed unconditionally,
but for a product under maintenance `canUserAccess` denies even the owner. -/
theorem C2_counterexample :
    maintenanceProduct.owner = 7 ∧
    (maintenanceProduct.canUserAccess 7).canAccess = false := by
  decide

/-- C2 (amended): provided the product is available, `canUserAccess` grants
the owner access at level `owner`; a clipboard entry's creator passes
`userHasAccess` at every level unconditionally. -/
theorem C2_owner_maximal_access (p : Product) (e : ClipboardEntry)
    (lvl : ShareLevel) (hp : p.isAvailable = true) :
    p.canUserAccess p.owner =
      { canAccess := true, level := some "owner", reason := none } ∧
    e.userHasAccess e.createdBy lvl = true := by
  constructor
  · simp [Product.canUserAccess, hp]
  · unfold ClipboardEntry.userHasAccess
    by_cases h : e.isPublic <;> simp [h]

theorem C2_owner_maximal_access_witness :
    availableProduct.isAvailable = true ∧
    (availableProduct.canUserAccess availableProduct.owner =
        { canAccess := true, level := some "owner", reason := none } ∧
      privateEntryP.userHasAccess privateEntryP.createdBy ShareLevel.write = true) :=
  ⟨by decide,
   C2_owner_maximal_access availableProduct privateEntryP ShareLevel.write (by decide)⟩

/-- C3 counterexample: on a public entry, `userHasAccess` grants `write` to a
principal who is neither the creator nor present in `sharedWith`, so levels
above `read` do not require a grant as the claim states. -/
theorem C3_counterexample :
    publicEntry.userHasAccess 2 ShareLevel.write = true ∧
    publicEntry.createdBy ≠ 2 ∧
    publicEntry.sharedWith = [] := by
  decide

/-- C3 (amended): a public entry passes `userHasAccess` for every principal
at every requested level — the `isPublic` short-circuit ignores the level. -/
theorem C3_public_grants_every_level (e : ClipboardEntry) (userId : UserId)
    (lvl : ShareLevel) (h : e.isPublic = true) :
    e.userHasAccess userId lvl = true := by
  simp [ClipboardEntry.userHasAccess, h]

theorem C3_public_grants_every_level_witness :
    publicEntry.isPublic = true ∧
    publicEntry.userHasAccess 5 ShareLevel.write = true :=
  ⟨by decide, C3_public_grants_every_level publicEntry 5 ShareLevel.write (by decide)⟩

/-- C5 counterexample: an active user whose `productAccess` list contains no
active entry (its single entry has `isActive = false`) passes
`authenticateToken`, so such a principal is not rejected as the claim
states. -/
theorem C5_counterexample :
    inactiveGrantUser.productAccess.all (fun p => !p.isActive) = true ∧
    authenticateToken (some (TokenResult.valid 1)) (fun _ => some inactiveGrantUser) =
      .ok inactiveGrantUser :=
  ⟨by decide, rfl⟩

/-- C5 (amended): the three token/principal failure modes map to distinct 401
errors; a principal whose `productAccess` list is empty is rejected with 403
"No product access granted"; a non-empty list passes regardless of its
entries' `isActive` flags. -/
theorem C5_auth_failure_modes (lookup : UserId → Option User) (uid : UserId)
    (u : User) :
    authenticateToken (some TokenResult.expired) lookup =
      .error ⟨401, "Token expired"⟩ ∧
    authenticateToken (some TokenResult.malformed) lookup =
      .error ⟨401, "Invalid token"⟩ ∧
    (lookup uid = none →
      authenticateToken (some (TokenResult.valid uid)) lookup =
        .error ⟨401, "User not found or inactive"⟩) ∧
    (lookup uid = some u → u.isActive = false →
      authenticateToken (some (TokenResult.valid uid)) lookup =
        .error ⟨401, "User not found or inactive"⟩) ∧
    (lookup uid = some u → u.isActive = true → u.productAccess = [] →
      authenticateToken (some (TokenResult.valid uid)) lookup =
        .error ⟨403, "No product access granted"⟩) ∧
    (lookup uid = some u → u.isActive = true → u.productAccess ≠ [] →
      authenticateToken (some (TokenResult.valid uid)) lookup = .ok u) := by
  refine ⟨rfl, rfl, ?_, ?_, ?_, ?_⟩
  · intro h
    simp [authenticateToken, h]
  · intro h hact
    simp [authenticateToken, h, hact]
  · intro h hact hempty
    simp [authenticateToken, h, hact, hempty]
  · intro h hact hne
    have hlen : u.productAccess.length ≠ 0 := by
      simpa [List.length_eq_zero] using hne
    simp [authenticateToken, h, hact, hlen]

theorem C5_auth_failure_modes_witness :
    ((fun _ : UserId => some inactiveGrantUser) 1 = some inactiveGrantUser ∧
      inactiveGrantUser.isActive = true ∧
      inactiveGrantUser.productAccess ≠ []) ∧
    authenticateToken (some (TokenResult.valid 1)) (fun _ => some inactiveGrantUser) =
      .ok inactiveGrantUser :=
  ⟨⟨rfl, by decide, by decide⟩,
   (C5_auth_failure_modes (fun _ => some inactiveGrantUser) 1
       inactiveGrantUser).2.2.2.2.2 rfl (by decide) (by decide)⟩

/-- C6 counterexample: `hasProductAccess` never consults `expiresAt`, so a
grant that is active but expired (expiry time 0, evaluated at time 1) still
passes, while the claim's active-and-non-expired condition fails. -/
theorem C6_counterexample :
    expiredGrantUser.hasProductAccess "P" ProdLevel.read = true ∧
    hasProductAccessSpec 1 expiredGrantUser "P" ProdLevel.read = false := by
  decide

/-- If a predicate holds at most once in a list, `find?` locates any member
satisfying it. -/
theorem find?_eq_of_countP_le_one {α : Type} (P : α → Bool) (l : List α)
    (h1 : l.countP P ≤ 1) {a : α} (ha : a ∈ l) (hPa : P a = true) :
    l.find? P = some a := by
  induction l with
  | nil => cases ha
  | cons x xs ih =>
      by_cases hx : P x = true
      · rw [List.find?_cons_of_pos _ hx]
        rcases List.mem_cons.mp ha with rfl | hmem
        · rfl
        · exfalso
          have hxs : xs.countP P = 0 := by
            have := h1
            rw [List.countP_cons_of_pos _ _ hx] at this
            omega
          have := (List.countP_eq_zero.mp hxs) a hmem
          exact this hPa
      · rw [List.find?_cons_of_neg _ hx]
        have hax : a ≠ x := by
          rintro rfl
          exact hx hPa
        have hmem : a ∈ xs := by
          rcases List.mem_cons.mp ha with rfl | hmem
          · exact absurd hPa hx
          · exact hmem
        have h1' : xs.countP P ≤ 1 := by
          rw [List.countP_cons_of_neg _ _ hx] at h1
          exact h1
        exact ih h1' hmem

/-- C6 (amended): under the data-model invariant of at most one active entry
per product, `hasProductAccess` returns true iff the list contains an active
entry for the product whose granted rank is at least the requested rank; the
entry's `expiresAt` plays no role. -/
theorem C6_hasProductAccess_iff (u : User) (productId : String)
    (lvl : ProdLevel)
    (huniq : u.productAccess.countP
        (fun p => p.productId == productId && p.isActive) ≤ 1) :
    u.hasProductAccess productId lvl = true ↔
      ∃ p ∈ u.productAccess, p.productId = productId ∧ p.isActive = true ∧
        prodLevelRank p.accessLevel ≥ prodLevelRank lvl := by
  constructor
  · intro h
    unfold User.hasProductAccess at h
    cases hfind : u.productAccess.find?
        (fun p => p.productId == productId && p.isActive) with
    | none => rw [hfind] at h; cases h
    | some p =>
        rw [hfind] at h
        have hmem := List.mem_of_find?_eq_some hfind
        have hpred := List.find?_some hfind
        have hpid : p.productId = productId := by
          have := (Bool.and_eq_true _ _).mp hpred |>.1
          exact beq_iff_eq.mp this
        have hact : p.isActive = true :=
          (Bool.and_eq_true _ _).mp hpred |>.2
        exact ⟨p, hmem, hpid, hact, of_decide_eq_true h⟩
  · rintro ⟨p, hmem, hpid, hact, hrank⟩
    have hPa : (p.productId == productId && p.isActive) = true := by
      rw [Bool.and_eq_true]
      exact ⟨beq_iff_eq.mpr hpid, hact⟩
    have hfind := find?_eq_of_countP_le_one _ _ huniq hmem hPa
    unfold User.hasProductAccess
    rw [hfind]
    exact decide_eq_true hrank

theorem C6_hasProductAccess_iff_witness :
    (adminGrantUser.productAccess.countP
        (fun p => p.productId == "P" && p.isActive) ≤ 1) ∧
    (∃ p ∈ adminGrantUser.productAccess, p.productId = "P" ∧ p.isActive = true ∧
        prodLevelRank p.accessLevel ≥ prodLevelRank ProdLevel.write) :=
  ⟨by decide,
   (C6_hasProductAccess_iff adminGrantUser "P" ProdLevel.write (by decide)).mp
     (by decide)⟩

/-- C1 counterexample: the `GET /api/clipboard` query admits a private entry
that requester 2 did not create and that is shared with nobody — the listing
applies no visibility filter, so the claim fails. -/
theorem C1_counterexample :
    routeListQueryMatches (fun _ _ => false) "P" none [] none privateEntryP = true ∧
    privateEntryP.isPublic = false ∧
    privateEntryP.createdBy ≠ 2 ∧
    privateEntryP.sharedWith.any (fun s => s.userId == 2) = false := by
  decide

/-- C1 (amended): the listing route's query filters only on product, type,
tags and text — every entry of the product passes it when no such filter is
given, for any requester — while `findByProduct` does apply the
public-or-own-or-shared rule as a query filter whenever `options.userId` is
supplied (the route never supplies it). -/
theorem C1_listing_visibility
    (textMatch : String → ClipboardEntry → Bool) (productId : String)
    (uid : UserId) (e : ClipboardEntry) (type? : Option CbType)
    (tags : List String) (search? : Option String) :
    (findByProductMatches textMatch productId type? tags search? (some uid) e = true →
      e.isPublic = true ∨ e.createdBy = uid ∨
        e.sharedWith.any (fun s => s.userId == uid) = true) ∧
    (e.productId = productId →
      routeListQueryMatches textMatch productId none [] none e = true) := by
  constructor
  · intro h
    unfold findByProductMatches at h
    simp only [Bool.and_eq_true] at h
    rcases h with ⟨-, hvis⟩
    simp only [Bool.or_eq_true] at hvis
    rcases hvis with (hcreated | hpub) | hshared
    · exact Or.inr (Or.inl (beq_iff_eq.mp hcreated))
    · exact Or.inl hpub
    · exact Or.inr (Or.inr hshared)
  · intro h
    simp [routeListQueryMatches, h]

theorem C1_listing_visibility_witness :
    (findByProductMatches (fun _ _ => false) "P" none [] none (some 2) sharedEntry = true ∧
      (sharedEntry.isPublic = true ∨ sharedEntry.createdBy = 2 ∨
        sharedEntry.sharedWith.any (fun s => s.userId == 2) = true)) ∧
    (privateEntryP.productId = "P" ∧
      routeListQueryMatches (fun _ _ => false) "P" none [] none privateEntryP = true) :=
  ⟨⟨by decide,
    (C1_listing_visibility (fun _ _ => false) "P" 2 sharedEntry none [] none).1
      (by decide)⟩,
   ⟨by decide,
    (C1_listing_visibility (fun _ _ => false) "P" 2 privateEntryP none [] none).2
      (by decide)⟩⟩

/-- C4 counterexample: a family group whose only member holds the `owner`
role; `removeMember` invoked by that owner on themselves succeeds and empties
the member list, so the claimed rejection does not happen. -/
theorem C4_counterexample :
    soleOwnerGroup.members.length = 1 ∧
    soleOwnerGroup.members.map FamilyMember.role = [FamilyRole.owner] ∧
    soleOwnerGroup.removeMember 1 1 = .ok { soleOwnerGroup with members := [] } := by
  exact ⟨rfl, rfl, rfl⟩

/-- C4 (amended): the product member routes reject demoting or removing the
sole `admin`-level member (leaving the member list unchanged, since an error
response is sent before any save); the family-group `removeMember` method has
no sole-owner guard — the sole `owner`-role member can remove themselves,
which succeeds and empties the member list. -/
theorem C4_last_admin_guard
    (p : RouteProduct) (targetId : UserId) (lvl : ProdLevel) (member : Member)
    (g : FamilyGroup) (m : FamilyMember) :
    (p.members.find? (fun x => x.userId == targetId) = some member →
      member.accessLevel = ProdLevel.admin → lvl ≠ ProdLevel.admin →
      (p.members.filter (fun x => x.accessLevel == ProdLevel.admin)).length = 1 →
      updateMemberAccess p targetId lvl =
        .error "Cannot remove the last admin from the product") ∧
    (p.owner ≠ targetId →
      p.members.find? (fun x => x.userId == targetId) = some member →
      member.accessLevel = ProdLevel.admin →
      (p.members.filter (fun x => x.accessLevel == ProdLevel.admin)).length = 1 →
      removeProductMember p targetId =
        .error "Cannot remove the last admin from the product") ∧
    (g.members = [m] → m.role = FamilyRole.owner →
      g.removeMember m.userId m.userId = .ok { g with members := [] }) := by
  refine ⟨?_, ?_, ?_⟩
  · intro hfind hlevel hlvl hcount
    simp [updateMemberAccess, hfind, hlevel, hcount, hlvl]
  · intro howner hfind hlevel hcount
    simp [removeProductMember, hfind, hlevel, hcount, howner]
  · intro hm hrole
    unfold FamilyGroup.removeMember FamilyGroup.canManageMember
    rw [hm]
    simp [hrole]

theorem C4_last_admin_guard_witness :
    (updateMemberAccess soleAdminProduct 1 ProdLevel.read =
        .error "Cannot remove the last admin from the product") ∧
    (removeProductMember soleAdminProduct 1 =
        .error "Cannot remove the last admin from the product") ∧
    (soleOwnerGroup.removeMember 1 1 = .ok { soleOwnerGroup with members := [] }) :=
  ⟨(C4_last_admin_guard soleAdminProduct 1 ProdLevel.read ⟨1, ProdLevel.admin⟩
        soleOwnerGroup ⟨1, FamilyRole.owner, getDefaultPermissions FamilyRole.owner⟩).1
      rfl rfl (by decide) rfl,
   (C4_last_admin_guard soleAdminProduct 1 ProdLevel.read ⟨1, ProdLevel.admin⟩
        soleOwnerGroup ⟨1, FamilyRole.owner, getDefaultPermissions FamilyRole.owner⟩).2.1
      (by decide) rfl rfl rfl,
   (C4_last_admin_guard soleAdminProduct 1 ProdLevel.read ⟨1, ProdLevel.admin⟩
        soleOwnerGroup ⟨1, FamilyRole.owner, getDefaultPermissions FamilyRole.owner⟩).2.2
      rfl rfl⟩

/-- `updateRoleFirst` rewrites exactly the member `find?` locates, giving it
the new role and the default permission bundle. -/
theorem find?_updateRoleFirst (uid : UserId) (r : FamilyRole)
    (l : List FamilyMember) (m : FamilyMember)
    (h : l.find? (fun x => x.userId == uid) = some m) :
    (updateRoleFirst uid r l).find? (fun x => x.userId == uid) =
      some { m with role := r, permissions := getDefaultPermissions r } := by
  induction l with
  | nil => simp at h
  | cons x xs ih =>
      by_cases hx : (x.userId == uid) = true
      · simp only [List.find?_cons, hx] at h
        injection h with h
        subst h
        simp [updateRoleFirst, hx, List.find?_cons]
      · have hx' : (x.userId == uid) = false := by simpa using hx
        simp only [List.find?_cons, hx'] at h
        simp only [updateRoleFirst, hx', Bool.false_eq_true, if_false,
          List.find?_cons]
        exact ih h

/-- C7: whenever `updateMemberRole` succeeds, the updated member's permission
bundle is exactly the static default table entry for the new role (and the
table is the one the spec lists), independent of the member's prior
permissions. -/
theorem C7_role_change_resets_permissions (g : FamilyGroup) (userId : UserId)
    (newRole : FamilyRole) (updatedBy : UserId) (g' : FamilyGroup)
    (h : g.updateMemberRole userId newRole updatedBy = .ok g') :
    (∃ m', g'.members.find? (fun x => x.userId == userId) = some m' ∧
        m'.role = newRole ∧ m'.permissions = getDefaultPermissions newRole) ∧
    getDefaultPermissions FamilyRole.owner =
      { canInvite := true, canManageMembers := true, canViewAll := true, canShare := true } ∧
    getDefaultPermissions FamilyRole.admin =
      { canInvite := true, canManageMembers := true, canViewAll := true, canShare := true } ∧
    getDefaultPermissions FamilyRole.member =
      { canInvite := false, canManageMembers := false, canViewAll := true, canShare := true } ∧
    getDefaultPermissions FamilyRole.guest =
      { canInvite := false, canManageMembers := false, canViewAll := false, canShare := false } := by
  refine ⟨?_, rfl, rfl, rfl, rfl⟩
  unfold FamilyGroup.updateMemberRole at h
  split at h
  · cases h
  · rename_i member hfind
    split at h
    · cases h
    · injection h with h
      subst h
      exact ⟨_, find?_updateRoleFirst userId newRole g.members member hfind,
             rfl, rfl⟩

theorem C7_role_change_resets_permissions_witness :
    roleChangeGroup.updateMemberRole 2 FamilyRole.guest 1 =
      .ok { roleChangeGroup with
            members := [⟨1, .owner, getDefaultPermissions .owner⟩,
                        ⟨2, .guest, getDefaultPermissions .guest⟩] } ∧
    ((∃ m', ({ roleChangeGroup with
            members := [⟨1, .owner, getDefaultPermissions .owner⟩,
                        ⟨2, .guest, getDefaultPermissions .guest⟩] } : FamilyGroup).members.find?
              (fun x => x.userId == 2) = some m' ∧
        m'.role = FamilyRole.guest ∧
        m'.permissions = getDefaultPermissions FamilyRole.guest) ∧
      getDefaultPermissions FamilyRole.owner =
        { canInvite := true, canManageMembers := true, canViewAll := true, canShare := true } ∧
      getDefaultPermissions FamilyRole.admin =
        { canInvite := true, canManageMembers := true, canViewAll := true, canShare := true } ∧
      getDefaultPermissions FamilyRole.member =
        { canInvite := false, canManageMembers := false, canViewAll := true, canShare := true } ∧
      getDefaultPermissions FamilyRole.guest =
        { canInvite := false, canManageMembers := false, canViewAll := false, canShare := false }) :=
  ⟨rfl,
   C7_role_change_resets_permissions roleChangeGroup 2 FamilyRole.guest 1 _ rfl⟩

/-- Updating a share record in place never changes the list of user ids. -/
theorem map_userId_updateShareFirst (uid : UserId) (lvl : ShareLevel)
    (now : Time) (l : List ShareRecord) :
    (updateShareFirst uid lvl now l).map ShareRecord.userId =
      l.map ShareRecord.userId := by
  induction l with
  | nil => rfl
  | cons x xs ih =>
      by_cases hx : (x.userId == uid) = true
      · simp [updateShareFirst, hx]
      · have hx' : (x.userId == uid) = false := by simpa using hx
        simp [updateShareFirst, hx', ih]

/-- Updating a share record in place never changes the list length. -/
theorem length_updateShareFirst (uid : UserId) (lvl : ShareLevel)
    (now : Time) (l : List ShareRecord) :
    (updateShareFirst uid lvl now l).length = l.length := by
  have h := congrArg List.length (map_userId_updateShareFirst uid lvl now l)
  simpa using h

/-- After an in-place update, the record `find?` locates carries the new
level and timestamp. -/
theorem find?_updateShareFirst (uid : UserId) (lvl : ShareLevel) (now : Time)
    (l : List ShareRecord) (h : l.any (fun s => s.userId == uid) = true) :
    (updateShareFirst uid lvl now l).find? (fun s => s.userId == uid) =
      some ⟨uid, lvl, now⟩ := by
  induction l with
  | nil => simp at h
  | cons x xs ih =>
      by_cases hx : (x.userId == uid) = true
      · have huid : x.userId = uid := beq_iff_eq.mp hx
        simp [updateShareFirst, hx, List.find?_cons, huid]
      · have hx' : (x.userId == uid) = false := by simpa using hx
        have h' : xs.any (fun s => s.userId == uid) = true := by
          simpa [List.any_cons, hx'] using h
        simp [updateShareFirst, hx', List.find?_cons, ih h']

/-- `shareWithUser` preserves distinctness of the `sharedWith` user ids. -/
theorem nodup_shareWithUser (e : ClipboardEntry) (uid : UserId)
    (lvl : ShareLevel) (now : Time)
    (h : (e.sharedWith.map ShareRecord.userId).Nodup) :
    ((e.shareWithUser uid lvl now).sharedWith.map ShareRecord.userId).Nodup := by
  unfold ClipboardEntry.shareWithUser
  by_cases hany : e.sharedWith.any (fun s => s.userId == uid) = true
  · simpa [hany, map_userId_updateShareFirst] using h
  · have hany' : e.sharedWith.any (fun s => s.userId == uid) = false := by
      simpa using hany
    simp only [hany', Bool.false_eq_true, if_false, List.map_append,
      List.nodup_append]
    refine ⟨h, List.nodup_singleton _, ?_⟩
    intro a ha hb
    simp only [List.map_cons, List.map_nil, List.mem_singleton] at hb
    rcases List.mem_map.mp ha with ⟨s, hs, hsuid⟩
    have : e.sharedWith.any (fun s => s.userId == uid) = true :=
      List.any_eq_true.mpr ⟨s, hs, by simp [hsuid, hb]⟩
    rw [this] at hany'
    cases hany'

/-- Distinct user ids bound the per-user record count by one. -/
theorem filter_userId_length_le_one (l : List ShareRecord) (uid' : UserId)
    (h : (l.map ShareRecord.userId).Nodup) :
    (l.filter (fun s => s.userId == uid')).length ≤ 1 := by
  induction l with
  | nil => simp
  | cons x xs ih =>
      simp only [List.map_cons, List.nodup_cons] at h
      obtain ⟨hnotin, hnodup⟩ := h
      by_cases hx : (x.userId == uid') = true
      · have hxid : x.userId = uid' := beq_iff_eq.mp hx
        have hempty : xs.filter (fun s => s.userId == uid') = [] := by
          rw [List.filter_eq_nil_iff]
          intro a ha hpa
          have haid : a.userId = uid' := beq_iff_eq.mp hpa
          exact hnotin (List.mem_map.mpr ⟨a, ha, by rw [haid, hxid]⟩)
        simp [List.filter_cons, hx, hempty]
      · have hx' : (x.userId == uid') = false := by simpa using hx
        simp only [List.filter_cons, hx', Bool.false_eq_true, if_false]
        exact ih hnodup

/-- Distinctness of user ids survives any sequence of `shareWithUser`
calls. -/
theorem nodup_foldl_shareWithUser (ops : List (UserId × ShareLevel × Time))
    (e : ClipboardEntry)
    (h : (e.sharedWith.map ShareRecord.userId).Nodup) :
    (((ops.foldl (fun acc op => acc.shareWithUser op.1 op.2.1 op.2.2)
        e).sharedWith.map ShareRecord.userId)).Nodup := by
  induction ops generalizing e with
  | nil => simpa using h
  | cons op rest ih =>
      exact ih _ (nodup_shareWithUser e op.1 op.2.1 op.2.2 h)

/-- C8: sharing with an already-present user updates the existing grant's
level and timestamp in place (same length, updated record found), and from
any entry whose `sharedWith` user ids are distinct, any sequence of share
operations leaves at most one record per user id. -/
theorem C8_share_idempotent (e : ClipboardEntry) (uid : UserId)
    (lvl : ShareLevel) (now : Time) :
    (e.sharedWith.any (fun s => s.userId == uid) = true →
      (e.shareWithUser uid lvl now).sharedWith.length = e.sharedWith.length ∧
      (e.shareWithUser uid lvl now).sharedWith.find? (fun s => s.userId == uid) =
        some ⟨uid, lvl, now⟩) ∧
    ((e.sharedWith.map ShareRecord.userId).Nodup →
      ∀ (ops : List (UserId × ShareLevel × Time)) (uid' : UserId),
        ((ops.foldl (fun acc op => acc.shareWithUser op.1 op.2.1 op.2.2)
            e).sharedWith.filter (fun s => s.userId == uid')).length ≤ 1) := by
  constructor
  · intro hany
    unfold ClipboardEntry.shareWithUser
    simp only [hany, if_true]
    exact ⟨length_updateShareFirst uid lvl now e.sharedWith,
           find?_updateShareFirst uid lvl now e.sharedWith hany⟩
  · intro hnodup ops uid'
    exact filter_userId_length_le_one _ _
      (nodup_foldl_shareWithUser ops e hnodup)

theorem C8_share_idempotent_witness :
    (sharedEntry.sharedWith.any (fun s => s.userId == 2) = true ∧
      ((sharedEntry.shareWithUser 2 ShareLevel.write 5).sharedWith.length =
          sharedEntry.sharedWith.length ∧
        (sharedEntry.shareWithUser 2 ShareLevel.write 5).sharedWith.find?
            (fun s => s.userId == 2) = some ⟨2, ShareLevel.write, 5⟩)) ∧
    ((sharedEntry.sharedWith.map ShareRecord.userId).Nodup ∧
      (([((3 : UserId), ShareLevel.read, (7 : Time))].foldl
          (fun acc op => acc.shareWithUser op.1 op.2.1 op.2.2)
          sharedEntry).sharedWith.filter (fun s => s.userId == 2)).length ≤ 1) :=
  ⟨⟨by decide, (C8_share_idempotent sharedEntry 2 ShareLevel.write 5).1 (by decide)⟩,
   ⟨by decide,
    (C8_share_idempotent sharedEntry 2 ShareLevel.write 5).2 (by decide)
      [((3 : UserId), ShareLevel.read, (7 : Time))] 2⟩⟩

/-- Setting the located pending invitation to a non-pending status adds one
invitation matching that email and status. -/
theorem countP_setInvStatusFirst_target (email : String) (st : InvStatus)
    (hst : st ≠ InvStatus.pending) (l : List Invitation) (inv : Invitation)
    (h : l.find? (fun i => i.email == email && i.status == InvStatus.pending) =
      some inv) :
    (setInvStatusFirst email st l).countP
        (fun i => i.email == email && i.status == st) =
      l.countP (fun i => i.email == email && i.status == st) + 1 := by
  induction l with
  | nil => simp at h
  | cons x xs ih =>
      by_cases hx : (x.email == email && x.status == InvStatus.pending) = true
      · obtain ⟨hxe, hxs⟩ := Bool.and_eq_true .. |>.mp hx
        have hxpend : x.status = InvStatus.pending := beq_iff_eq.mp hxs
        have hxnot : (x.status == st) = false := by
          rw [hxpend]
          exact beq_eq_false_iff_ne.mpr (Ne.symm hst)
        simp [setInvStatusFirst, hx, hxe, hxs, List.countP_cons, hxnot]
      · have hx' :
            (x.email == email && x.status == InvStatus.pending) = false := by
          simpa using hx
        simp only [List.find?_cons, hx'] at h
        have ihh := ih h
        simp only [setInvStatusFirst, hx', Bool.false_eq_true, if_false,
          List.countP_cons, ihh]
        omega

/-- Setting a pending invitation to status `st` leaves untouched the count of
invitations in any status satisfying neither `pending` nor `st`. -/
theorem countP_setInvStatusFirst_other (email : String) (st : InvStatus)
    (Q : InvStatus → Bool) (hQpending : Q InvStatus.pending = false)
    (hQst : Q st = false) (l : List Invitation) :
    (setInvStatusFirst email st l).countP (fun i => Q i.status) =
      l.countP (fun i => Q i.status) := by
  induction l with
  | nil => rfl
  | cons x xs ih =>
      by_cases hx : (x.email == email && x.status == InvStatus.pending) = true
      · obtain ⟨hxe, hxs⟩ := Bool.and_eq_true .. |>.mp hx
        have hxpend : x.status = InvStatus.pending := beq_iff_eq.mp hxs
        have hxe' : x.email = email := beq_iff_eq.mp hxe
        simp [setInvStatusFirst, hx, List.countP_cons, hxpend, hQpending,
          hQst, hxe']
      · have hx' :
            (x.email == email && x.status == InvStatus.pending) = false := by
          simpa using hx
        simp [setInvStatusFirst, hx', List.countP_cons, ih]

/-- `setInvStatusFirst` never touches an invitation that is not pending. -/
theorem get?_setInvStatusFirst_of_ne_pending (email : String) (st : InvStatus)
    (l : List Invitation) (j : Nat) (inv0 : Invitation)
    (hget : l.get? j = some inv0) (hne : inv0.status ≠ InvStatus.pending) :
    (setInvStatusFirst email st l).get? j = some inv0 := by
  induction l generalizing j with
  | nil => simp at hget
  | cons x xs ih =>
      cases j with
      | zero =>
          simp only [List.get?_cons_zero] at hget
          injection hget with hget
          subst hget
          have hx :
              (x.email == email && x.status == InvStatus.pending) = false := by
            have : (x.status == InvStatus.pending) = false :=
              beq_eq_false_iff_ne.mpr hne
            simp [this]
          simp [setInvStatusFirst, hx]
      | succ n =>
          simp only [List.get?_cons_succ] at hget
          by_cases hx :
              (x.email == email && x.status == InvStatus.pending) = true
          · have hcons : setInvStatusFirst email st (x :: xs) =
                { x with status := st } :: xs := by
              simp [setInvStatusFirst, hx]
            rw [hcons, List.get?_cons_succ]
            exact hget
          · have hx' :
                (x.email == email && x.status == InvStatus.pending) = false := by
              simpa using hx
            have hcons : setInvStatusFirst email st (x :: xs) =
                x :: setInvStatusFirst email st xs := by
              simp [setInvStatusFirst, hx']
            rw [hcons, List.get?_cons_succ]
            exact ih n hget

/-- C9: accepting an invitation whose `expiresAt` has passed is rejected with
"Invitation has expired"; the member list is unchanged; the invitation's
status becomes `expired` (one more matching-email expired invitation, the
count of accepted invitations unchanged); and no invitation that had already
left the pending status is touched, so an invitation leaves `pending` at most
once. -/
theorem C9_expired_invitation (g : FamilyGroup) (email : String)
    (userId : UserId) (now : Time) (inv : Invitation)
    (hf : g.pendingInvitations.find?
        (fun i => i.email == email && i.status == InvStatus.pending) = some inv)
    (hexp : inv.expiresAt < now) :
    (g.acceptInvitation email userId now).1 = some "Invitation has expired" ∧
    (g.acceptInvitation email userId now).2.members = g.members ∧
    (g.acceptInvitation email userId now).2.pendingInvitations.countP
        (fun i => i.email == email && i.status == InvStatus.expired) =
      g.pendingInvitations.countP
        (fun i => i.email == email && i.status == InvStatus.expired) + 1 ∧
    (g.acceptInvitation email userId now).2.pendingInvitations.countP
        (fun i => i.status == InvStatus.accepted) =
      g.pendingInvitations.countP (fun i => i.status == InvStatus.accepted) ∧
    (∀ (j : Nat) (inv0 : Invitation),
      g.pendingInvitations.get? j = some inv0 →
      inv0.status ≠ InvStatus.pending →
      (g.acceptInvitation email userId now).2.pendingInvitations.get? j =
        some inv0) := by
  have hred : g.acceptInvitation email userId now =
      (some "Invitation has expired",
       { g with pendingInvitations :=
           setInvStatusFirst email InvStatus.expired g.pendingInvitations }) := by
    unfold FamilyGroup.acceptInvitation
    rw [hf]
    simp [hexp]
  rw [hred]
  refine ⟨rfl, rfl, ?_, ?_, ?_⟩
  · exact countP_setInvStatusFirst_target email InvStatus.expired (by decide)
      g.pendingInvitations inv hf
  · exact countP_setInvStatusFirst_other email InvStatus.expired
      (fun s => s == InvStatus.accepted) rfl rfl g.pendingInvitations
  · intro j inv0 hget hne
    exact get?_setInvStatusFirst_of_ne_pending email InvStatus.expired
      g.pendingInvitations j inv0 hget hne

theorem C9_expired_invitation_witness :
    (expiredInviteGroup.pendingInvitations.find?
        (fun i => i.email == "b@example.com" && i.status == InvStatus.pending) =
      some ⟨"b@example.com", 0, FamilyRole.member, InvStatus.pending⟩ ∧
      ((0 : Time) < 5)) ∧
    ((expiredInviteGroup.acceptInvitation "b@example.com" 2 5).1 =
        some "Invitation has expired" ∧
      (expiredInviteGroup.acceptInvitation "b@example.com" 2 5).2.members =
        expiredInviteGroup.members) :=
  ⟨⟨rfl, by decide⟩,
   (C9_expired_invitation expiredInviteGroup "b@example.com" 2 5
       ⟨"b@example.com", 0, FamilyRole.member, InvStatus.pending⟩ rfl
       (by decide)).1,
   (C9_expired_invitation expiredInviteGroup "b@example.com" 2 5
       ⟨"b@example.com", 0, FamilyRole.member, InvStatus.pending⟩ rfl
       (by decide)).2.1⟩

end CbYourl
